import Mathlib

/-!
Verification of src/diffusion/diffusion_utils.py.

Tensors are modelled as a reversed shape (innermost / trailing dimension
first) together with a total valuation on reversed multi-indices; real
arithmetic stands in for floating point.  Broadcasting follows the
trailing-dimension alignment rule of the source's tensor library: two
dimensions are compatible when they are equal or one of them is 1, and a
missing leading dimension behaves like 1.
-/

namespace DiffusionUtils

noncomputable section

/-- A tensor: reversed shape plus elementwise values at reversed multi-indices. -/
structure Tensor where
  rshape : List Nat
  val : List Nat → ℝ

/-- Broadcast of a single pair of dimensions. -/
def bdim (a b : Nat) : Option Nat :=
  if a = 1 then some b else if b = 1 then some a else if a = b then some a else none

/-- Broadcast of two reversed shapes (trailing-dimension aligned). -/
def bshape : List Nat → List Nat → Option (List Nat)
  | [], t => some t
  | a :: s, [] => some (a :: s)
  | a :: s, b :: t =>
    match bdim a b, bshape s t with
    | some d, some r => some (d :: r)
    | _, _ => none

/-- Restrict a reversed multi-index for a broadcast result to an operand of
the given reversed shape: coordinates of broadcast (size-1) dimensions read 0,
extra leading dimensions are dropped. -/
def adjustIdx : List Nat → List Nat → List Nat
  | [], _ => []
  | _ :: s, [] => 0 :: adjustIdx s []
  | a :: s, i :: idx => (if a = 1 then 0 else i) :: adjustIdx s idx

/-- Value an operand contributes at an index of a broadcast result. -/
def Tensor.readAt (t : Tensor) (idx : List Nat) : ℝ :=
  t.val (adjustIdx t.rshape idx)

/-- A 0-dimensional tensor holding one scalar, as built by th.tensor(x). -/
def scalarTensor (v : ℝ) : Tensor :=
  ⟨[], fun _ => v⟩

/-- Elementwise unary operation (shape preserving). -/
def emap (f : ℝ → ℝ) (t : Tensor) : Tensor :=
  ⟨t.rshape, fun idx => f (t.val idx)⟩

/-- Elementwise binary operation with broadcasting. -/
def ebop (f : ℝ → ℝ → ℝ) (t u : Tensor) : Option Tensor :=
  match bshape t.rshape u.rshape with
  | some s => some ⟨s, fun idx => f (t.readAt idx) (u.readAt idx)⟩
  | none => none

/-- th.zeros_like. -/
def zeros_like (t : Tensor) : Tensor :=
  ⟨t.rshape, fun _ => 0⟩

/-- th.ones_like. -/
def ones_like (t : Tensor) : Tensor :=
  ⟨t.rshape, fun _ => 1⟩

/-- An argument of normal_kl: a plain Python scalar or a tensor. -/
inductive TValue where
  | scalar (v : ℝ)
  | tensor (t : Tensor)

/-- isinstance(obj, th.Tensor). -/
def TValue.isTensor : TValue → Bool
  | .scalar _ => false
  | .tensor _ => true

/-- View an argument as a tensor (a Python scalar acts as a 0-dim tensor). -/
def TValue.toTensor : TValue → Tensor
  | .scalar v => scalarTensor v
  | .tensor t => t

/-- The two run-time failures normal_kl can produce: its own assert, or a
shape error raised by broadcasting. -/
inductive KLError where
  | assertionError
  | broadcastError
deriving DecidableEq

/-- The closed-form KL formula of normal_kl, on one element. -/
def normal_kl_elem (mean1 logvar1 mean2 logvar2 : ℝ) : ℝ :=
  0.5 * (-1.0 + logvar2 - logvar1 + Real.exp (logvar1 - logvar2)
    + (mean1 - mean2) ^ 2 * Real.exp (-logvar2))

/-- The tensor expression of normal_kl after the assert, following the
source's evaluation tree:
0.5 * (-1.0 + logvar2 - logvar1 + th.exp(logvar1 - logvar2)
       + ((mean1 - mean2) ** 2) * th.exp(-logvar2)). -/
def normal_kl_comp (m1 lv1 m2 lv2 : Tensor) : Option Tensor :=
  (ebop (· + ·) (scalarTensor (-1.0)) lv2).bind fun a1 =>
  (ebop (· - ·) a1 lv1).bind fun a2 =>
  (ebop (· - ·) lv1 lv2).bind fun d =>
  (ebop (· + ·) a2 (emap Real.exp d)).bind fun a3 =>
  (ebop (· - ·) m1 m2).bind fun md =>
  (ebop (· * ·) (emap (fun v => v ^ 2) md) (emap (fun v => Real.exp (-v)) lv2)).bind fun tm =>
  (ebop (· + ·) a3 tm).bind fun a4 =>
  some (emap (fun v => 0.5 * v) a4)

/-- normal_kl: asserts that at least one argument is a tensor, converts the
scalar arguments, and evaluates the closed-form KL with broadcasting. -/
def normal_kl (mean1 logvar1 mean2 logvar2 : TValue) : Except KLError Tensor :=
  if mean1.isTensor || logvar1.isTensor || mean2.isTensor || logvar2.isTensor then
    match normal_kl_comp mean1.toTensor logvar1.toTensor mean2.toTensor logvar2.toTensor with
    | some t => .ok t
    | none => .error .broadcastError
  else .error .assertionError

/-- approx_standard_normal_cdf on one element:
0.5 * (1.0 + th.tanh(np.sqrt(2.0 / np.pi) * (x + 0.044715 * th.pow(x, 3)))). -/
def approx_standard_normal_cdf_elem (x : ℝ) : ℝ :=
  0.5 * (1.0 + Real.tanh (Real.sqrt (2.0 / Real.pi) * (x + 0.044715 * x ^ 3)))

/-- approx_standard_normal_cdf: the tanh approximation, elementwise. -/
def approx_standard_normal_cdf (x : Tensor) : Tensor :=
  emap approx_standard_normal_cdf_elem x

/-- th.distributions.Normal(loc, scale).log_prob(value):
-((value - loc) ** 2) / (2 * scale ** 2) - scale.log() - log(sqrt(2 * pi)). -/
def normal_log_prob (loc scale value : Tensor) : Option Tensor :=
  (ebop (· - ·) value loc).bind fun diff =>
  (ebop (· / ·) (emap (fun v => v ^ 2) diff) (emap (fun s => 2 * s ^ 2) scale)).bind fun quad =>
  (ebop (· - ·) (emap (fun v => -v) quad) (emap Real.log scale)).bind fun r =>
  some (emap (fun v => v - Real.log (Real.sqrt (2 * Real.pi))) r)

/-- continuous_gaussian_log_likelihood: standard-normal log_prob of the
standardized residual (x - means) * th.exp(-log_scales). -/
def continuous_gaussian_log_likelihood (x means log_scales : Tensor) : Option Tensor :=
  (ebop (· - ·) x means).bind fun centered_x =>
  (ebop (· * ·) centered_x (emap (fun v => Real.exp (-v)) log_scales)).bind fun normalized_x =>
  normal_log_prob (zeros_like x) (ones_like x) normalized_x

/-- discretized_gaussian_log_likelihood on one element, with clamp(min=c)
rendered as max with c. -/
def discretized_gaussian_log_likelihood_elem (x means log_scales : ℝ) : ℝ :=
  let centered_x := x - means
  let inv_stdv := Real.exp (-log_scales)
  let plus_in := inv_stdv * (centered_x + 1.0 / 255.0)
  let cdf_plus := approx_standard_normal_cdf_elem plus_in
  let min_in := inv_stdv * (centered_x - 1.0 / 255.0)
  let cdf_min := approx_standard_normal_cdf_elem min_in
  let log_cdf_plus := Real.log (max cdf_plus 1e-12)
  let log_one_minus_cdf_min := Real.log (max (1.0 - cdf_min) 1e-12)
  let cdf_delta := cdf_plus - cdf_min
  if x < -0.999 then log_cdf_plus
  else if x > 0.999 then log_one_minus_cdf_min
  else Real.log (max cdf_delta 1e-12)

/-- discretized_gaussian_log_likelihood: asserts the three shapes are
identical, then applies the per-element computation (all intermediate
tensors share that one shape, so th.where is elementwise selection). -/
def discretized_gaussian_log_likelihood (x means log_scales : Tensor) : Option Tensor :=
  if x.rshape = means.rshape ∧ means.rshape = log_scales.rshape then
    some ⟨x.rshape, fun idx =>
      discretized_gaussian_log_likelihood_elem (x.val idx) (means.val idx) (log_scales.val idx)⟩
  else none

/-- The common broadcast shape of four operands. -/
def bshape4 (s1 s2 s3 s4 : List Nat) : Option (List Nat) :=
  (bshape s1 s2).bind fun a => (bshape a s3).bind fun b => bshape b s4

/-- Shape s broadcasts into shape S without changing S. -/
def brTo (s S : List Nat) : Prop :=
  bshape s S = some S

end

theorem bdim_self (a : Nat) : bdim a a = some a := by
  simp [bdim]

theorem bdim_comm (a b : Nat) : bdim a b = bdim b a := by
  by_cases h1 : a = 1
  · subst h1
    by_cases h2 : b = 1
    · subst h2; rfl
    · simp [bdim, h2]
  · by_cases h2 : b = 1
    · subst h2; simp [bdim, h1]
    · by_cases h3 : a = b
      · subst h3; rfl
      · have h4 : ¬b = a := fun h => h3 h.symm
        simp [bdim, h1, h2, h3, h4]

theorem bdim_some_cases {a b d : Nat} (h : bdim a b = some d) : d = a ∨ d = b := by
  unfold bdim at h
  split_ifs at h <;> simp_all

theorem bdim_right_iff {a c : Nat} : bdim a c = some c ↔ a = c ∨ a = 1 := by
  unfold bdim
  split_ifs with h1 h2 h3 <;> simp_all

theorem bdim_mem {a b d : Nat} (h : bdim a b = some d) :
    bdim a d = some d ∧ bdim b d = some d := by
  rw [bdim_right_iff, bdim_right_iff]
  unfold bdim at h
  split_ifs at h with h1 h2 h3 <;>
    first
    | (simp only [Option.some.injEq] at h; omega)
    | simp at h

theorem bdim_join {a b c : Nat} (ha : bdim a c = some c) (hb : bdim b c = some c) :
    ∃ d, bdim a b = some d ∧ bdim d c = some c := by
  rw [bdim_right_iff] at ha hb
  by_cases h1 : a = 1
  · refine ⟨b, ?_, ?_⟩
    · simp [bdim, h1]
    · rw [bdim_right_iff]; omega
  · by_cases h2 : b = 1
    · refine ⟨a, ?_, ?_⟩
      · simp [bdim, h1, h2]
      · rw [bdim_right_iff]; omega
    · have hab : a = b := by omega
      refine ⟨a, ?_, ?_⟩
      · simp [bdim, h1, h2, hab]
      · rw [bdim_right_iff]; omega

theorem bshape_nil_left (s : List Nat) : bshape [] s = some s := rfl

theorem bshape_nil_right (s : List Nat) : bshape s [] = some s := by
  cases s <;> rfl

theorem bshape_cons_some {a b : Nat} {s t : List Nat} {u : List Nat}
    (h : bshape (a :: s) (b :: t) = some u) :
    ∃ d r, bdim a b = some d ∧ bshape s t = some r ∧ u = d :: r := by
  unfold bshape at h
  cases hd : bdim a b <;> cases hr : bshape s t <;> rw [hd, hr] at h <;> simp_all

theorem bshape_cons_build {a b d : Nat} {s t r : List Nat}
    (hd : bdim a b = some d) (hr : bshape s t = some r) :
    bshape (a :: s) (b :: t) = some (d :: r) := by
  unfold bshape
  rw [hd, hr]

theorem bshape_self (s : List Nat) : bshape s s = some s := by
  induction s with
  | nil => rfl
  | cons a s ih => exact bshape_cons_build (bdim_self a) ih

theorem bshape_comm (s t : List Nat) : bshape s t = bshape t s := by
  induction s generalizing t with
  | nil => rw [bshape_nil_left, bshape_nil_right]
  | cons a s ih =>
    cases t with
    | nil => rw [bshape_nil_left, bshape_nil_right]
    | cons b t =>
      unfold bshape
      rw [bdim_comm, ih t]

theorem mem_of_bshape {s t u : List Nat} (h : bshape s t = some u) :
    brTo s u ∧ brTo t u := by
  induction s generalizing t u with
  | nil =>
    rw [bshape_nil_left] at h
    injection h with h
    subst h
    exact ⟨rfl, bshape_self t⟩
  | cons a s ih =>
    cases t with
    | nil =>
      rw [bshape_nil_right] at h
      injection h with h
      subst h
      exact ⟨bshape_self _, rfl⟩
    | cons b t =>
      obtain ⟨d, r, hd, hr, rfl⟩ := bshape_cons_some h
      obtain ⟨hs, ht⟩ := ih hr
      exact ⟨bshape_cons_build (bdim_mem hd).1 hs, bshape_cons_build (bdim_mem hd).2 ht⟩

theorem brTo_cons {a : Nat} {s S : List Nat} (h : brTo (a :: s) S) :
    ∃ c S', S = c :: S' ∧ (a = c ∨ a = 1) ∧ brTo s S' := by
  cases S with
  | nil =>
    rw [brTo, bshape_nil_right] at h
    simp at h
  | cons c S' =>
    obtain ⟨d, r, hd, hr, he⟩ := bshape_cons_some h
    injection he with h1 h2
    subst h1
    subst h2
    exact ⟨c, S', rfl, bdim_right_iff.mp hd, hr⟩

theorem brTo_refl (s : List Nat) : brTo s s := bshape_self s

theorem brTo_nil (S : List Nat) : brTo [] S := bshape_nil_left S

theorem brTo_trans {s u S : List Nat} (h1 : brTo s u) (h2 : brTo u S) : brTo s S := by
  induction s generalizing u S with
  | nil => exact brTo_nil S
  | cons a s ih =>
    obtain ⟨b, u', rfl, hab, hsu⟩ := brTo_cons h1
    obtain ⟨c, S', rfl, hbc, huS⟩ := brTo_cons h2
    exact bshape_cons_build (bdim_right_iff.mpr (by omega)) (ih hsu huS)

theorem brTo_antisymm {s t : List Nat} (h1 : brTo s t) (h2 : brTo t s) : s = t := by
  induction s generalizing t with
  | nil =>
    rw [brTo, bshape_nil_right] at h2
    injection h2 with h2
    rw [h2]
  | cons a s ih =>
    obtain ⟨c, t', rfl, hac, hst⟩ := brTo_cons h1
    obtain ⟨a', s', he, hca, hts⟩ := brTo_cons h2
    injection he with he1 he2
    subst he1
    subst he2
    have : a = c := by omega
    rw [this, ih hst hts]

theorem brTo_join {s t S : List Nat} (hs : brTo s S) (ht : brTo t S) :
    ∃ u, bshape s t = some u ∧ brTo u S := by
  induction s generalizing t S with
  | nil => exact ⟨t, bshape_nil_left t, ht⟩
  | cons a s ih =>
    cases t with
    | nil => exact ⟨a :: s, bshape_nil_right _, hs⟩
    | cons b t =>
      obtain ⟨c, S', rfl, hac, hsS⟩ := brTo_cons hs
      obtain ⟨c', S'', he, hbc, htS⟩ := brTo_cons ht
      injection he with he1 he2
      subst he1
      subst he2
      obtain ⟨d, hd, hdc⟩ := bdim_join (bdim_right_iff.mpr hac) (bdim_right_iff.mpr hbc)
      obtain ⟨u, hu, huS⟩ := ih hsS htS
      exact ⟨d :: u, bshape_cons_build hd hu, bshape_cons_build hdc huS⟩

theorem brTo_lub {x y z W : List Nat} (hxy : bshape x y = some z)
    (hx : brTo x W) (hy : brTo y W) : brTo z W := by
  induction x generalizing y z W with
  | nil =>
    rw [bshape_nil_left] at hxy
    injection hxy with hxy
    subst hxy
    exact hy
  | cons a x ih =>
    cases y with
    | nil =>
      rw [bshape_nil_right] at hxy
      injection hxy with hxy
      subst hxy
      exact hx
    | cons b y =>
      obtain ⟨d, r, hd, hr, rfl⟩ := bshape_cons_some hxy
      obtain ⟨c, W', rfl, hac, hxW⟩ := brTo_cons hx
      obtain ⟨c', W'', he, hbc, hyW⟩ := brTo_cons hy
      injection he with he1 he2
      subst he1
      subst he2
      have hdc : d = c ∨ d = 1 := by
        rcases bdim_some_cases hd with rfl | rfl <;> omega
      exact bshape_cons_build (bdim_right_iff.mpr hdc) (ih hr hxW hyW)

theorem brTo_absorb {t u : List Nat} (h : brTo t u) : bshape u t = some u := by
  rw [bshape_comm]
  exact h

theorem adj_of_brTo {s S : List Nat} (h : brTo s S) (idx : List Nat) :
    adjustIdx s (adjustIdx S idx) = adjustIdx s idx := by
  induction s generalizing S idx with
  | nil => rfl
  | cons a s ih =>
    obtain ⟨c, S', rfl, hac, hsS⟩ := brTo_cons h
    cases idx with
    | nil =>
      show (if a = 1 then 0 else 0) :: adjustIdx s (adjustIdx S' []) = 0 :: adjustIdx s []
      rw [ite_self, ih hsS]
    | cons i idx =>
      show (if a = 1 then 0 else if c = 1 then 0 else i) :: adjustIdx s (adjustIdx S' idx)
        = (if a = 1 then 0 else i) :: adjustIdx s idx
      rw [ih hsS]
      rcases Nat.decEq a 1 with h1 | h1
      · simp [h1]
        omega
      · simp [h1]

theorem readAt_scalarTensor (v : ℝ) (idx : List Nat) :
    (scalarTensor v).readAt idx = v := rfl

theorem emap_rshape (f : ℝ → ℝ) (t : Tensor) : (emap f t).rshape = t.rshape := rfl

theorem readAt_emap (f : ℝ → ℝ) (t : Tensor) (idx : List Nat) :
    (emap f t).readAt idx = f (t.readAt idx) := rfl

theorem readAt_zeros_like (t : Tensor) (idx : List Nat) :
    (zeros_like t).readAt idx = 0 := rfl

theorem readAt_ones_like (t : Tensor) (idx : List Nat) :
    (ones_like t).readAt idx = 1 := rfl

theorem readAt_adjust {t : Tensor} {S : List Nat} (h : brTo t.rshape S) (idx : List Nat) :
    t.readAt (adjustIdx S idx) = t.readAt idx := by
  unfold Tensor.readAt
  rw [adj_of_brTo h]

theorem ebop_eq_some {f : ℝ → ℝ → ℝ} {t u : Tensor} {s : List Nat}
    (h : bshape t.rshape u.rshape = some s) :
    ebop f t u = some ⟨s, fun idx => f (t.readAt idx) (u.readAt idx)⟩ := by
  unfold ebop
  rw [h]

theorem ebop_rshape {f : ℝ → ℝ → ℝ} {t u r : Tensor} (h : ebop f t u = some r) :
    bshape t.rshape u.rshape = some r.rshape := by
  unfold ebop at h
  cases hB : bshape t.rshape u.rshape with
  | none => rw [hB] at h; simp at h
  | some s =>
    rw [hB] at h
    injection h with h
    rw [← h]

theorem ebop_val {f : ℝ → ℝ → ℝ} {t u r : Tensor} (h : ebop f t u = some r) (idx : List Nat) :
    r.val idx = f (t.readAt idx) (u.readAt idx) := by
  unfold ebop at h
  cases hB : bshape t.rshape u.rshape with
  | none => rw [hB] at h; simp at h
  | some s =>
    rw [hB] at h
    injection h with h
    rw [← h]

theorem readAt_ebop {f : ℝ → ℝ → ℝ} {t u r : Tensor} (h : ebop f t u = some r) (idx : List Nat) :
    r.readAt idx = f (t.readAt idx) (u.readAt idx) := by
  have hB := ebop_rshape h
  obtain ⟨ht, hu⟩ := mem_of_bshape hB
  show r.val (adjustIdx r.rshape idx) = _
  rw [ebop_val h, readAt_adjust ht, readAt_adjust hu]

theorem ebop_spec (f : ℝ → ℝ → ℝ) {t u : Tensor} {s : List Nat}
    (h : bshape t.rshape u.rshape = some s) :
    ∃ r, ebop f t u = some r ∧ r.rshape = s := by
  exact ⟨_, ebop_eq_some h, rfl⟩

theorem tanh_eq_formula (x : ℝ) : Real.tanh x = 1 - 2 / (Real.exp (2 * x) + 1) := by
  rw [Real.tanh_eq_sinh_div_cosh, Real.sinh_eq, Real.cosh_eq]
  have he : (0:ℝ) < Real.exp x := Real.exp_pos x
  have h2 : Real.exp (2 * x) = Real.exp x * Real.exp x := by
    rw [two_mul, Real.exp_add]
  have h3 : Real.exp x ≠ 0 := ne_of_gt he
  have h4 : Real.exp x * Real.exp x + 1 ≠ 0 := by positivity
  have h5 : Real.exp x + Real.exp (-x) ≠ 0 := by positivity
  rw [h2, Real.exp_neg] at *
  field_simp
  ring

theorem tanh_mono {x y : ℝ} (h : x ≤ y) : Real.tanh x ≤ Real.tanh y := by
  rw [tanh_eq_formula, tanh_eq_formula]
  have h1 : Real.exp (2 * x) + 1 ≤ Real.exp (2 * y) + 1 := by
    have := Real.exp_le_exp_of_le (by linarith : 2 * x ≤ 2 * y)
    linarith
  have h2 : (0:ℝ) < Real.exp (2 * x) + 1 := by positivity
  have h3 : (0:ℝ) < Real.exp (2 * y) + 1 := by positivity
  have h4 : 2 / (Real.exp (2 * y) + 1) ≤ 2 / (Real.exp (2 * x) + 1) :=
    (div_le_div_left (by norm_num) h3 h2).mpr h1
  linarith

theorem tanh_lt_one (x : ℝ) : Real.tanh x < 1 := by
  rw [tanh_eq_formula]
  have : (0:ℝ) < 2 / (Real.exp (2 * x) + 1) := by positivity
  linarith

theorem neg_one_lt_tanh (x : ℝ) : -1 < Real.tanh x := by
  rw [tanh_eq_formula]
  have h2 : (0:ℝ) < Real.exp (2 * x) + 1 := by positivity
  have : 2 / (Real.exp (2 * x) + 1) < 2 := by
    rw [div_lt_iff h2]
    nlinarith [Real.exp_pos (2 * x)]
  linarith

theorem cube_mono {a b : ℝ} (h : a ≤ b) : a ^ 3 ≤ b ^ 3 := by
  nlinarith [sq_nonneg (a + b), sq_nonneg (a - b), sq_nonneg a, sq_nonneg b]

theorem acdf_elem_mono {a b : ℝ} (h : a ≤ b) :
    approx_standard_normal_cdf_elem a ≤ approx_standard_normal_cdf_elem b := by
  unfold approx_standard_normal_cdf_elem
  have hc : (0:ℝ) ≤ Real.sqrt (2.0 / Real.pi) := Real.sqrt_nonneg _
  have h0 : (0.044715:ℝ) * a ^ 3 ≤ 0.044715 * b ^ 3 :=
    mul_le_mul_of_nonneg_left (cube_mono h) (by norm_num)
  have h1 : a + 0.044715 * a ^ 3 ≤ b + 0.044715 * b ^ 3 := by linarith
  have h3 := tanh_mono (mul_le_mul_of_nonneg_left h1 hc)
  linarith

theorem acdf_elem_zero : approx_standard_normal_cdf_elem 0 = 0.5 := by
  unfold approx_standard_normal_cdf_elem
  norm_num [Real.tanh_zero]

theorem acdf_elem_nonneg (x : ℝ) : 0 ≤ approx_standard_normal_cdf_elem x := by
  unfold approx_standard_normal_cdf_elem
  have := neg_one_lt_tanh (Real.sqrt (2.0 / Real.pi) * (x + 0.044715 * x ^ 3))
  linarith

theorem acdf_elem_le_one (x : ℝ) : approx_standard_normal_cdf_elem x ≤ 1 := by
  unfold approx_standard_normal_cdf_elem
  have := tanh_lt_one (Real.sqrt (2.0 / Real.pi) * (x + 0.044715 * x ^ 3))
  linarith

theorem normal_kl_elem_nonneg (m1 l1 m2 l2 : ℝ) : 0 ≤ normal_kl_elem m1 l1 m2 l2 := by
  unfold normal_kl_elem
  have h1 := Real.add_one_le_exp (l1 - l2)
  have h2 : (0:ℝ) ≤ (m1 - m2) ^ 2 * Real.exp (-l2) := by positivity
  nlinarith

theorem normal_kl_elem_self (m l : ℝ) : normal_kl_elem m l m l = 0 := by
  unfold normal_kl_elem
  simp only [sub_self, Real.exp_zero]
  ring

theorem dgl_elem_ge_log_floor (x m l : ℝ) :
    Real.log 1e-12 ≤ discretized_gaussian_log_likelihood_elem x m l := by
  unfold discretized_gaussian_log_likelihood_elem
  have hfloor : (0:ℝ) < 1e-12 := by norm_num
  split_ifs <;>
    exact (Real.log_le_log_iff hfloor
      (lt_of_lt_of_le hfloor (le_max_right _ _))).mpr (le_max_right _ _)

theorem normal_kl_comp_val {m1 lv1 m2 lv2 t : Tensor}
    (h : normal_kl_comp m1 lv1 m2 lv2 = some t) (idx : List Nat) :
    t.val idx = normal_kl_elem (m1.readAt idx) (lv1.readAt idx)
      (m2.readAt idx) (lv2.readAt idx) := by
  unfold normal_kl_comp at h
  cases e1 : ebop (· + ·) (scalarTensor (-1.0)) lv2 with
  | none => rw [e1] at h; simp at h
  | some r1 =>
  rw [e1, Option.some_bind] at h
  cases e2 : ebop (· - ·) r1 lv1 with
  | none => rw [e2] at h; simp at h
  | some r2 =>
  rw [e2, Option.some_bind] at h
  cases e3 : ebop (· - ·) lv1 lv2 with
  | none => rw [e3] at h; simp at h
  | some r3 =>
  rw [e3, Option.some_bind] at h
  cases e4 : ebop (· + ·) r2 (emap Real.exp r3) with
  | none => rw [e4] at h; simp at h
  | some r4 =>
  rw [e4, Option.some_bind] at h
  cases e5 : ebop (· - ·) m1 m2 with
  | none => rw [e5] at h; simp at h
  | some r5 =>
  rw [e5, Option.some_bind] at h
  cases e6 : ebop (· * ·) (emap (fun v => v ^ 2) r5) (emap (fun v => Real.exp (-v)) lv2) with
  | none => rw [e6] at h; simp at h
  | some r6 =>
  rw [e6, Option.some_bind] at h
  cases e7 : ebop (· + ·) r4 r6 with
  | none => rw [e7] at h; simp at h
  | some r7 =>
  rw [e7, Option.some_bind] at h
  injection h with h
  subst h
  show 0.5 * r7.val idx = _
  simp only [ebop_val e7, readAt_ebop e4, readAt_ebop e2, readAt_ebop e1, readAt_ebop e3,
    readAt_ebop e6, readAt_ebop e5, readAt_emap, readAt_scalarTensor]
  unfold normal_kl_elem
  ring

theorem normal_kl_comp_some {m1 lv1 m2 lv2 : Tensor} {S : List Nat}
    (h : bshape4 m1.rshape lv1.rshape m2.rshape lv2.rshape = some S) :
    ∃ t, normal_kl_comp m1 lv1 m2 lv2 = some t ∧ t.rshape = S := by
  unfold bshape4 at h
  cases hA : bshape m1.rshape lv1.rshape with
  | none => rw [hA] at h; simp at h
  | some u1 =>
  rw [hA, Option.some_bind] at h
  cases hB : bshape u1 m2.rshape with
  | none => rw [hB] at h; simp at h
  | some u2 =>
  rw [hB, Option.some_bind] at h
  obtain ⟨hm1u1, hlv1u1⟩ := mem_of_bshape hA
  obtain ⟨hu1u2, hm2u2⟩ := mem_of_bshape hB
  obtain ⟨hu2S, hlv2S⟩ := mem_of_bshape h
  have hm1S : brTo m1.rshape S := brTo_trans (brTo_trans hm1u1 hu1u2) hu2S
  have hlv1S : brTo lv1.rshape S := brTo_trans (brTo_trans hlv1u1 hu1u2) hu2S
  have hm2S : brTo m2.rshape S := brTo_trans hm2u2 hu2S
  obtain ⟨B, hB2, hBS⟩ := brTo_join hlv2S hlv1S
  obtain ⟨C, hC2, hCS⟩ := brTo_join hlv1S hlv2S
  obtain ⟨D, hD2, hDS⟩ := brTo_join hBS hCS
  obtain ⟨E, hE2, hES⟩ := brTo_join hm1S hm2S
  obtain ⟨F, hF2, hFS⟩ := brTo_join hES hlv2S
  obtain ⟨G, hG2, hGS⟩ := brTo_join hDS hFS
  obtain ⟨r1, e1, s1⟩ := ebop_spec (· + ·) (t := scalarTensor (-1.0)) (u := lv2)
    (bshape_nil_left lv2.rshape)
  obtain ⟨r2, e2, s2⟩ := ebop_spec (· - ·) (t := r1) (u := lv1) (by rw [s1]; exact hB2)
  obtain ⟨r3, e3, s3⟩ := ebop_spec (· - ·) (t := lv1) (u := lv2) hC2
  obtain ⟨r4, e4, s4⟩ := ebop_spec (· + ·) (t := r2) (u := emap Real.exp r3)
    (by simp only [emap_rshape]; rw [s2, s3]; exact hD2)
  obtain ⟨r5, e5, s5⟩ := ebop_spec (· - ·) (t := m1) (u := m2) hE2
  obtain ⟨r6, e6, s6⟩ := ebop_spec (· * ·) (t := emap (fun v => v ^ 2) r5)
    (u := emap (fun v => Real.exp (-v)) lv2)
    (by simp only [emap_rshape]; rw [s5]; exact hF2)
  obtain ⟨r7, e7, s7⟩ := ebop_spec (· + ·) (t := r4) (u := r6) (by rw [s4, s6]; exact hG2)
  have hm1G : brTo m1.rshape G :=
    brTo_trans (brTo_trans (mem_of_bshape hE2).1 (mem_of_bshape hF2).1) (mem_of_bshape hG2).2
  have hm2G : brTo m2.rshape G :=
    brTo_trans (brTo_trans (mem_of_bshape hE2).2 (mem_of_bshape hF2).1) (mem_of_bshape hG2).2
  have hlv1G : brTo lv1.rshape G :=
    brTo_trans (brTo_trans (mem_of_bshape hC2).1 (mem_of_bshape hD2).2) (mem_of_bshape hG2).1
  have hlv2G : brTo lv2.rshape G :=
    brTo_trans (brTo_trans (mem_of_bshape hB2).1 (mem_of_bshape hD2).1) (mem_of_bshape hG2).1
  have hu1G : brTo u1 G := brTo_lub hA hm1G hlv1G
  have hu2G : brTo u2 G := brTo_lub hB hu1G hm2G
  have hSG : brTo S G := brTo_lub h hu2G hlv2G
  have hGSeq : G = S := brTo_antisymm hGS hSG
  refine ⟨emap (fun v => 0.5 * v) r7, ?_, ?_⟩
  · unfold normal_kl_comp
    rw [e1, Option.some_bind, e2, Option.some_bind, e3, Option.some_bind, e4, Option.some_bind,
      e5, Option.some_bind, e6, Option.some_bind, e7, Option.some_bind]
  · rw [emap_rshape, s7, hGSeq]

theorem normal_kl_ok (mean1 logvar1 mean2 logvar2 : TValue) {S : List Nat}
    (hT : (mean1.isTensor || logvar1.isTensor || mean2.isTensor || logvar2.isTensor) = true)
    (hS : bshape4 mean1.toTensor.rshape logvar1.toTensor.rshape mean2.toTensor.rshape
      logvar2.toTensor.rshape = some S) :
    ∃ t, normal_kl mean1 logvar1 mean2 logvar2 = .ok t ∧ t.rshape = S ∧
      ∀ idx, t.val idx = normal_kl_elem (mean1.toTensor.readAt idx)
        (logvar1.toTensor.readAt idx) (mean2.toTensor.readAt idx)
        (logvar2.toTensor.readAt idx) := by
  obtain ⟨t, hc, hsh⟩ := normal_kl_comp_some hS
  refine ⟨t, ?_, hsh, fun idx => normal_kl_comp_val hc idx⟩
  unfold normal_kl
  rw [if_pos hT, hc]

theorem continuous_gll_spec (x means log_scales : Tensor) {s1 s2 s3 : List Nat}
    (h1 : bshape x.rshape means.rshape = some s1)
    (h2 : bshape s1 log_scales.rshape = some s2)
    (h3 : bshape s2 x.rshape = some s3) :
    ∃ t, continuous_gaussian_log_likelihood x means log_scales = some t ∧ t.rshape = s3 ∧
      ∀ idx, t.val idx =
        -0.5 * ((x.readAt idx - means.readAt idx) * Real.exp (-(log_scales.readAt idx))) ^ 2
          - 0.5 * Real.log (2 * Real.pi) := by
  obtain ⟨c1, e1, q1⟩ := ebop_spec (· - ·) (t := x) (u := means) h1
  obtain ⟨c2, e2, q2⟩ := ebop_spec (· * ·) (t := c1)
    (u := emap (fun v => Real.exp (-v)) log_scales)
    (by simp only [emap_rshape]; rw [q1]; exact h2)
  have hx3 : brTo x.rshape s3 := (mem_of_bshape h3).2
  have habs : bshape s3 x.rshape = some s3 := brTo_absorb hx3
  obtain ⟨c3, e3, q3⟩ := ebop_spec (· - ·) (t := c2) (u := zeros_like x)
    (by rw [q2]; exact h3)
  obtain ⟨c4, e4, q4⟩ := ebop_spec (· / ·) (t := emap (fun v => v ^ 2) c3)
    (u := emap (fun s => 2 * s ^ 2) (ones_like x))
    (by simp only [emap_rshape]; rw [q3]; exact habs)
  obtain ⟨c5, e5, q5⟩ := ebop_spec (· - ·) (t := emap (fun v => -v) c4)
    (u := emap Real.log (ones_like x))
    (by simp only [emap_rshape]; rw [q4]; exact habs)
  refine ⟨emap (fun v => v - Real.log (Real.sqrt (2 * Real.pi))) c5, ?_, ?_, ?_⟩
  · unfold continuous_gaussian_log_likelihood normal_log_prob
    rw [e1, Option.some_bind, e2, Option.some_bind, e3, Option.some_bind, e4, Option.some_bind,
      e5, Option.some_bind]
  · rw [emap_rshape, q5]
  · intro idx
    show c5.val idx - Real.log (Real.sqrt (2 * Real.pi)) = _
    simp only [ebop_val e5, readAt_emap, readAt_ebop e4, readAt_ebop e3, readAt_ebop e2,
      readAt_ebop e1, readAt_zeros_like, readAt_ones_like]
    rw [Real.log_one, Real.log_sqrt (by positivity)]
    ring

theorem dgll_eq_some {x means log_scales : Tensor}
    (h1 : x.rshape = means.rshape) (h2 : means.rshape = log_scales.rshape) :
    discretized_gaussian_log_likelihood x means log_scales =
      some ⟨x.rshape, fun idx => discretized_gaussian_log_likelihood_elem
        (x.val idx) (means.val idx) (log_scales.val idx)⟩ := by
  unfold discretized_gaussian_log_likelihood
  rw [if_pos ⟨h1, h2⟩]

theorem dgll_eq_none {x means log_scales : Tensor}
    (h : ¬(x.rshape = means.rshape ∧ means.rshape = log_scales.rshape)) :
    discretized_gaussian_log_likelihood x means log_scales = none := by
  unfold discretized_gaussian_log_likelihood
  rw [if_neg h]

theorem dgl_elem_nonpos (x m l : ℝ) :
    discretized_gaussian_log_likelihood_elem x m l ≤ 0 := by
  unfold discretized_gaussian_log_likelihood_elem
  have hfloor : (0:ℝ) ≤ 1e-12 := by norm_num
  have hplus := acdf_elem_le_one (Real.exp (-l) * (x - m + 1.0 / 255.0))
  have hplus0 := acdf_elem_nonneg (Real.exp (-l) * (x - m + 1.0 / 255.0))
  have hmin := acdf_elem_le_one (Real.exp (-l) * (x - m - 1.0 / 255.0))
  have hmin0 := acdf_elem_nonneg (Real.exp (-l) * (x - m - 1.0 / 255.0))
  split_ifs <;>
    refine Real.log_nonpos (le_max_of_le_right hfloor) (max_le (by linarith) (by norm_num))

theorem dgll_some_elim {x means log_scales t : Tensor}
    (h : discretized_gaussian_log_likelihood x means log_scales = some t) :
    t.rshape = x.rshape ∧ ∀ idx, t.val idx = discretized_gaussian_log_likelihood_elem
      (x.val idx) (means.val idx) (log_scales.val idx) := by
  unfold discretized_gaussian_log_likelihood at h
  split_ifs at h with hc
  all_goals first
  | (injection h with h; subst h; exact ⟨rfl, fun idx => rfl⟩)
  | simp at h

/-- Claim C4: approx_standard_normal_cdf returns elementwise
0.5 * (1 + tanh(sqrt(2/pi) * (x + 0.044715 * x^3))), and the output has the
same shape as x. -/
theorem approx_cdf_formula_and_shape :
    ∀ x : Tensor, (approx_standard_normal_cdf x).rshape = x.rshape ∧
      ∀ idx, (approx_standard_normal_cdf x).val idx =
        0.5 * (1 + Real.tanh (Real.sqrt (2 / Real.pi)
          * (x.val idx + 0.044715 * (x.val idx) ^ 3))) := by
  intro x
  refine ⟨rfl, fun idx => ?_⟩
  show approx_standard_normal_cdf_elem (x.val idx) = _
  unfold approx_standard_normal_cdf_elem
  norm_num

/-- Claim C8: approx_standard_normal_cdf is monotonically non-decreasing
elementwise, and maps an all-zero input to 0.5. -/
theorem approx_cdf_monotone :
    (∀ a b : Tensor, (∀ idx, a.val idx ≤ b.val idx) →
      ∀ idx, (approx_standard_normal_cdf a).val idx ≤ (approx_standard_normal_cdf b).val idx) ∧
    (∀ z : Tensor, (∀ idx, z.val idx = 0) →
      ∀ idx, (approx_standard_normal_cdf z).val idx = 0.5) := by
  constructor
  · intro a b hab idx
    exact acdf_elem_mono (hab idx)
  · intro z hz idx
    show approx_standard_normal_cdf_elem (z.val idx) = 0.5
    rw [hz idx]
    exact acdf_elem_zero

/-- Claim C8 witness at concrete inputs 0 and 1. -/
theorem approx_cdf_monotone_witness :
    (approx_standard_normal_cdf (scalarTensor 0)).val []
      ≤ (approx_standard_normal_cdf (scalarTensor 1)).val [] ∧
    (approx_standard_normal_cdf (scalarTensor 0)).val [] = 0.5 :=
  ⟨approx_cdf_monotone.1 (scalarTensor 0) (scalarTensor 1)
    (fun _ => by show (0:ℝ) ≤ 1; norm_num) [],
   approx_cdf_monotone.2 (scalarTensor 0) (fun _ => rfl) []⟩

/-- Claim C10: every element of approx_standard_normal_cdf lies in the closed
interval 0..1, and consequently every output element of
discretized_gaussian_log_likelihood is at most 0. -/
theorem approx_cdf_range_and_dgll_nonpos :
    (∀ x : Tensor, ∀ idx, 0 ≤ (approx_standard_normal_cdf x).val idx ∧
      (approx_standard_normal_cdf x).val idx ≤ 1) ∧
    (∀ x means log_scales t,
      discretized_gaussian_log_likelihood x means log_scales = some t →
      ∀ idx, t.val idx ≤ 0) := by
  constructor
  · intro x idx
    exact ⟨acdf_elem_nonneg (x.val idx), acdf_elem_le_one (x.val idx)⟩
  · intro x means log_scales t h idx
    rw [(dgll_some_elim h).2 idx]
    exact dgl_elem_nonpos _ _ _

/-- Claim C10 witness for the discretized part at a concrete 0-dim input. -/
theorem approx_cdf_range_and_dgll_nonpos_witness :
    ∃ t, discretized_gaussian_log_likelihood (scalarTensor 0) (scalarTensor 0) (scalarTensor 0)
      = some t ∧ t.val [] ≤ 0 :=
  ⟨_, dgll_eq_some rfl rfl,
   approx_cdf_range_and_dgll_nonpos.2 _ _ _ _ (dgll_eq_some rfl rfl) []⟩

/-- Claim C9: when discretized_gaussian_log_likelihood succeeds, every output
element is at least log(1e-12); the 1e-12 floor prevents minus-infinity. -/
theorem dgll_log_floor :
    ∀ x means log_scales t,
      discretized_gaussian_log_likelihood x means log_scales = some t →
      ∀ idx, Real.log 1e-12 ≤ t.val idx := by
  intro x means log_scales t h idx
  rw [(dgll_some_elim h).2 idx]
  exact dgl_elem_ge_log_floor _ _ _

/-- Claim C9 witness at a concrete 0-dim input. -/
theorem dgll_log_floor_witness :
    ∃ t, discretized_gaussian_log_likelihood (scalarTensor 0) (scalarTensor 0) (scalarTensor 0)
      = some t ∧ Real.log 1e-12 ≤ t.val [] :=
  ⟨_, dgll_eq_some rfl rfl, dgll_log_floor _ _ _ _ (dgll_eq_some rfl rfl) []⟩

/-- Claim C6: discretized_gaussian_log_likelihood succeeds exactly when the
three shapes are identical, the output shape equals the shape of x, and the
shape-[4] versus shape-[3] mismatch fails. -/
theorem dgll_shape_guard :
    (∀ x means log_scales : Tensor,
      (discretized_gaussian_log_likelihood x means log_scales).isSome ↔
        (x.rshape = means.rshape ∧ means.rshape = log_scales.rshape)) ∧
    (∀ x means log_scales t,
      discretized_gaussian_log_likelihood x means log_scales = some t →
      t.rshape = x.rshape) ∧
    discretized_gaussian_log_likelihood ⟨[4], fun _ => 0⟩ ⟨[3], fun _ => 0⟩ ⟨[3], fun _ => 0⟩
      = none := by
  refine ⟨?_, ?_, ?_⟩
  · intro x means log_scales
    unfold discretized_gaussian_log_likelihood
    split_ifs with hc
    · simp [hc]
    · simp [hc]
  · intro x means log_scales t h
    exact (dgll_some_elim h).1
  · apply dgll_eq_none
    simp

/-- Claim C6 witness: a matching-shape call succeeds with the input shape. -/
theorem dgll_shape_guard_witness :
    (discretized_gaussian_log_likelihood (scalarTensor 0) (scalarTensor 0)
      (scalarTensor 0)).isSome ∧
    (∃ t, discretized_gaussian_log_likelihood (scalarTensor 0) (scalarTensor 0) (scalarTensor 0)
      = some t ∧ t.rshape = []) :=
  ⟨(dgll_shape_guard.1 _ _ _).mpr ⟨rfl, rfl⟩,
   ⟨_, dgll_eq_some rfl rfl, dgll_shape_guard.2.1 _ _ _ _ (dgll_eq_some rfl rfl)⟩⟩

/-- Claim C2: for identically shaped inputs, discretized_gaussian_log_likelihood
selects per element, in priority order, log(max(cdf_plus, 1e-12)) when
x < -0.999, log(max(1 - cdf_min, 1e-12)) when x > 0.999, and
log(max(cdf_plus - cdf_min, 1e-12)) otherwise, with
cdf_plus = approx_standard_normal_cdf(exp(-log_scales) * (x - means + 1/255))
and cdf_min the same at x - means - 1/255; x = -1 takes the first branch and
x = 1 the second. -/
theorem dgll_piecewise :
    ∀ x means log_scales : Tensor,
      x.rshape = means.rshape → means.rshape = log_scales.rshape →
      ∃ t, discretized_gaussian_log_likelihood x means log_scales = some t ∧
        ∀ idx,
          (t.val idx =
            if x.val idx < -0.999 then
              Real.log (max (approx_standard_normal_cdf_elem
                (Real.exp (-(log_scales.val idx))
                  * (x.val idx - means.val idx + 1 / 255))) 1e-12)
            else if x.val idx > 0.999 then
              Real.log (max (1 - approx_standard_normal_cdf_elem
                (Real.exp (-(log_scales.val idx))
                  * (x.val idx - means.val idx - 1 / 255))) 1e-12)
            else
              Real.log (max (approx_standard_normal_cdf_elem
                (Real.exp (-(log_scales.val idx))
                  * (x.val idx - means.val idx + 1 / 255))
                - approx_standard_normal_cdf_elem
                (Real.exp (-(log_scales.val idx))
                  * (x.val idx - means.val idx - 1 / 255))) 1e-12)) ∧
          (x.val idx = -1 → t.val idx =
            Real.log (max (approx_standard_normal_cdf_elem
              (Real.exp (-(log_scales.val idx))
                * (x.val idx - means.val idx + 1 / 255))) 1e-12)) ∧
          (x.val idx = 1 → t.val idx =
            Real.log (max (1 - approx_standard_normal_cdf_elem
              (Real.exp (-(log_scales.val idx))
                * (x.val idx - means.val idx - 1 / 255))) 1e-12)) := by
  intro x means log_scales h1 h2
  refine ⟨_, dgll_eq_some h1 h2, fun idx => ?_⟩
  have hval : discretized_gaussian_log_likelihood_elem (x.val idx) (means.val idx)
      (log_scales.val idx) =
      if x.val idx < -0.999 then
        Real.log (max (approx_standard_normal_cdf_elem
          (Real.exp (-(log_scales.val idx)) * (x.val idx - means.val idx + 1 / 255))) 1e-12)
      else if x.val idx > 0.999 then
        Real.log (max (1 - approx_standard_normal_cdf_elem
          (Real.exp (-(log_scales.val idx)) * (x.val idx - means.val idx - 1 / 255))) 1e-12)
      else
        Real.log (max (approx_standard_normal_cdf_elem
          (Real.exp (-(log_scales.val idx)) * (x.val idx - means.val idx + 1 / 255))
          - approx_standard_normal_cdf_elem
          (Real.exp (-(log_scales.val idx)) * (x.val idx - means.val idx - 1 / 255))) 1e-12) := by
    unfold discretized_gaussian_log_likelihood_elem
    norm_num
  refine ⟨hval, fun hx => ?_, fun hx => ?_⟩
  · show discretized_gaussian_log_likelihood_elem (x.val idx) (means.val idx)
      (log_scales.val idx) = _
    rw [hval, hx]
    rw [if_pos (by norm_num : (-1:ℝ) < -0.999)]
  · show discretized_gaussian_log_likelihood_elem (x.val idx) (means.val idx)
      (log_scales.val idx) = _
    rw [hval, hx]
    rw [if_neg (by norm_num : ¬((1:ℝ) < -0.999)), if_pos (by norm_num : (1:ℝ) > 0.999)]

/-- Claim C2 witness: a concrete call at x = -1 with matching shapes. -/
theorem dgll_piecewise_witness :
    ∃ t, discretized_gaussian_log_likelihood (scalarTensor (-1)) (scalarTensor 0)
      (scalarTensor 0) = some t := by
  obtain ⟨t, ht, -⟩ :=
    dgll_piecewise (scalarTensor (-1)) (scalarTensor 0) (scalarTensor 0) rfl rfl
  exact ⟨t, ht⟩

/-- Claim C5: normal_kl returns its assertion failure exactly when none of the
four arguments is a tensor; in particular the all-scalar call fails this way,
and a call with a tensor argument never raises this error. -/
theorem normal_kl_assert_iff :
    (∀ mean1 logvar1 mean2 logvar2 : TValue,
      normal_kl mean1 logvar1 mean2 logvar2 = .error .assertionError ↔
        (mean1.isTensor || logvar1.isTensor || mean2.isTensor || logvar2.isTensor) = false) ∧
    normal_kl (.scalar 0) (.scalar 0) (.scalar 0) (.scalar 0) = .error .assertionError := by
  have key : ∀ mean1 logvar1 mean2 logvar2 : TValue,
      normal_kl mean1 logvar1 mean2 logvar2 = .error .assertionError ↔
        (mean1.isTensor || logvar1.isTensor || mean2.isTensor || logvar2.isTensor) = false := by
    intro m1 l1 m2 l2
    unfold normal_kl
    by_cases hT : (m1.isTensor || l1.isTensor || m2.isTensor || l2.isTensor) = true
    · rw [if_pos hT]
      constructor
      · intro hcontra
        cases hcomp : normal_kl_comp m1.toTensor l1.toTensor m2.toTensor l2.toTensor with
        | some t => rw [hcomp] at hcontra; simp at hcontra
        | none => rw [hcomp] at hcontra; simp at hcontra
      · intro hF
        rw [hT] at hF
        simp at hF
    · rw [if_neg hT]
      simp only [Bool.not_eq_true] at hT
      simp [hT]
  exact ⟨key, (key _ _ _ _).mpr rfl⟩

/-- Claim C3: with at least one tensor argument and broadcast-compatible
shapes, normal_kl returns a tensor of the common broadcast shape whose
elements are 0.5 * (-1 + logvar2 - logvar1 + exp(logvar1 - logvar2)
+ (mean1 - mean2)^2 * exp(-logvar2)). -/
theorem normal_kl_broadcast_formula :
    ∀ (mean1 logvar1 mean2 logvar2 : TValue) (S : List Nat),
      (mean1.isTensor || logvar1.isTensor || mean2.isTensor || logvar2.isTensor) = true →
      bshape4 mean1.toTensor.rshape logvar1.toTensor.rshape mean2.toTensor.rshape
        logvar2.toTensor.rshape = some S →
      ∃ t, normal_kl mean1 logvar1 mean2 logvar2 = .ok t ∧ t.rshape = S ∧
        ∀ idx, t.val idx = 0.5 * (-1 + logvar2.toTensor.readAt idx
          - logvar1.toTensor.readAt idx
          + Real.exp (logvar1.toTensor.readAt idx - logvar2.toTensor.readAt idx)
          + (mean1.toTensor.readAt idx - mean2.toTensor.readAt idx) ^ 2
            * Real.exp (-(logvar2.toTensor.readAt idx))) := by
  intro m1 l1 m2 l2 S hT hS
  obtain ⟨t, h1, h2, h3⟩ := normal_kl_ok m1 l1 m2 l2 hT hS
  refine ⟨t, h1, h2, fun idx => ?_⟩
  rw [h3 idx]
  unfold normal_kl_elem
  norm_num

/-- Claim C3 witness: one tensor argument among scalars, 0-dim shapes. -/
theorem normal_kl_broadcast_formula_witness :
    ∃ t, normal_kl (.tensor (scalarTensor 0)) (.scalar 0) (.scalar 0) (.scalar 0)
      = .ok t := by
  obtain ⟨t, ht, -, -⟩ := normal_kl_broadcast_formula (.tensor (scalarTensor 0))
    (.scalar 0) (.scalar 0) (.scalar 0) [] rfl rfl
  exact ⟨t, ht⟩

/-- Claim C7: normal_kl of a distribution with itself is elementwise zero,
every successful normal_kl output is elementwise non-negative, and
normal_kl(0, 0, array([0]), 0) is the one-element zero array. -/
theorem normal_kl_zero_and_nonneg :
    (∀ m lv : Tensor, m.rshape = lv.rshape →
      ∃ t, normal_kl (.tensor m) (.tensor lv) (.tensor m) (.tensor lv) = .ok t ∧
        t.rshape = m.rshape ∧ ∀ idx, t.val idx = 0) ∧
    (∀ mean1 logvar1 mean2 logvar2 : TValue, ∀ t,
      normal_kl mean1 logvar1 mean2 logvar2 = .ok t → ∀ idx, 0 ≤ t.val idx) ∧
    (∃ t, normal_kl (.scalar 0) (.scalar 0) (.tensor ⟨[1], fun _ => 0⟩) (.scalar 0)
      = .ok t ∧ t.rshape = [1] ∧ ∀ idx, t.val idx = 0) := by
  refine ⟨?_, ?_, ?_⟩
  · intro m lv hsh
    have hS : bshape4 m.rshape lv.rshape m.rshape lv.rshape = some m.rshape := by
      rw [← hsh]
      unfold bshape4
      rw [bshape_self, Option.some_bind, bshape_self, Option.some_bind, bshape_self]
    obtain ⟨t, h1, h2, h3⟩ := normal_kl_ok (.tensor m) (.tensor lv)
      (.tensor m) (.tensor lv) (by rfl) hS
    refine ⟨t, h1, h2, fun idx => ?_⟩
    rw [h3 idx]
    exact normal_kl_elem_self _ _
  · intro m1 l1 m2 l2 t h idx
    unfold normal_kl at h
    by_cases hT : (m1.isTensor || l1.isTensor || m2.isTensor || l2.isTensor) = true
    · rw [if_pos hT] at h
      cases hcomp : normal_kl_comp m1.toTensor l1.toTensor m2.toTensor l2.toTensor with
      | none => rw [hcomp] at h; simp at h
      | some r =>
        rw [hcomp] at h
        injection h with h
        subst h
        rw [normal_kl_comp_val hcomp idx]
        exact normal_kl_elem_nonneg _ _ _ _
    · rw [if_neg hT] at h
      simp at h
  · obtain ⟨t, h1, h2, h3⟩ := normal_kl_ok (.scalar 0) (.scalar 0)
      (.tensor ⟨[1], fun _ => 0⟩) (.scalar 0) (S := [1]) rfl rfl
    refine ⟨t, h1, h2, fun idx => ?_⟩
    rw [h3 idx]
    show normal_kl_elem 0 0 0 0 = 0
    exact normal_kl_elem_self 0 0

/-- Claim C7 witness: the self-KL part at a concrete 0-dim tensor pair. -/
theorem normal_kl_zero_and_nonneg_witness :
    ∃ t, normal_kl (.tensor (scalarTensor 2)) (.tensor (scalarTensor 3))
      (.tensor (scalarTensor 2)) (.tensor (scalarTensor 3)) = .ok t ∧
      t.rshape = [] ∧ ∀ idx, t.val idx = 0 :=
  normal_kl_zero_and_nonneg.1 (scalarTensor 2) (scalarTensor 3) rfl

/-- Claim C1 counterexample: at x = means = 0 and log_scales = 1 the code
returns -0.5 * log(2 * pi), not -log_scales - 0.5 * log(2 * pi) as claimed,
because the returned value is the standard-normal log-density of the
standardized residual without the -log_scales change-of-variables term. -/
theorem continuous_gll_claim_counterexample :
    (continuous_gaussian_log_likelihood (scalarTensor 0) (scalarTensor 0)
      (scalarTensor 1)).map (fun t => t.val [])
      ≠ some (-(1:ℝ) - 0.5 * Real.log (2 * Real.pi)) := by
  obtain ⟨t, he, -, hval⟩ := continuous_gll_spec (scalarTensor 0)
    (scalarTensor 0) (scalarTensor 1) rfl rfl rfl
  rw [he]
  simp only [Option.map_some']
  rw [hval []]
  simp only [readAt_scalarTensor]
  intro hc
  rw [Option.some.injEq] at hc
  nlinarith [hc]

/-- Claim C1 amended: continuous_gaussian_log_likelihood returns elementwise
-0.5 * z^2 - 0.5 * log(2 * pi) with z = (x - means) * exp(-log_scales) (the
-log_scales term is absent); when x equals means the value is
-0.5 * log(2 * pi). -/
theorem continuous_gll_standardized :
    ∀ (x means log_scales : Tensor) (s1 s2 s3 : List Nat),
      bshape x.rshape means.rshape = some s1 →
      bshape s1 log_scales.rshape = some s2 →
      bshape s2 x.rshape = some s3 →
      ∃ t, continuous_gaussian_log_likelihood x means log_scales = some t ∧
        t.rshape = s3 ∧
        (∀ idx, t.val idx = -0.5 * ((x.readAt idx - means.readAt idx)
          * Real.exp (-(log_scales.readAt idx))) ^ 2 - 0.5 * Real.log (2 * Real.pi)) ∧
        (∀ idx, x.readAt idx = means.readAt idx →
          t.val idx = -0.5 * Real.log (2 * Real.pi)) := by
  intro x means log_scales s1 s2 s3 h1 h2 h3
  obtain ⟨t, he, hsh, hval⟩ := continuous_gll_spec x means log_scales h1 h2 h3
  refine ⟨t, he, hsh, hval, fun idx hxm => ?_⟩
  rw [hval idx, hxm, sub_self]
  ring

/-- Claim C1 witness: the amended statement at concrete 0-dim inputs. -/
theorem continuous_gll_standardized_witness :
    ∃ t, continuous_gaussian_log_likelihood (scalarTensor 0) (scalarTensor 0)
      (scalarTensor 1) = some t ∧ t.val [] = -0.5 * Real.log (2 * Real.pi) := by
  obtain ⟨t, he, -, -, hzero⟩ := continuous_gll_standardized (scalarTensor 0)
    (scalarTensor 0) (scalarTensor 1) [] [] [] rfl rfl rfl
  exact ⟨t, he, hzero [] rfl⟩

end DiffusionUtils
